import Mathlib

/-!
# Verification of `jh_warm.py` (imagenet_nv)

A shallow embedding of the parts of `jh_warm.py` that the specification's
claims are about: the `DataPrefetcher` class (its `__init__`, `__len__`,
`preload` and `__iter__` methods), the `save_args` / `ImagenetLoggingCallback`
logging sink, the `fp16`/cudnn assertion in `main`, and the three-stage
structure of `main` itself.

Batches are modelled abstractly by a type parameter `α`: a batch is the
`(input, target)` pair pulled from the source loader, and the prefetcher
never inspects its contents.  A source loader (`torch.utils.data.DataLoader`)
is modelled as a finite list of batches: each call to `iter(loader)` yields a
fresh iterator over that same list, and `next` on the iterator either returns
the head or raises `StopIteration` at the end.
-/

namespace JhWarm

/-- The `stop_after` constructor argument of `DataPrefetcher`.  In Python it
may be `None` (the default), an `int`, or any other object; the cap check in
`__iter__` is `type(self.stop_after) is int and (count > self.stop_after)`,
so only a genuine `int` can ever trigger it.  `other` stands for any value
that is neither `None` nor of exact type `int` (e.g. a `bool` or a `float`). -/
inductive StopAfter where
  | none : StopAfter
  | int : Int → StopAfter
  | other : StopAfter
deriving DecidableEq, Repr

/-- `type(self.stop_after) is int and (count > self.stop_after)` — the cap
test performed after each yield in `DataPrefetcher.__iter__`. -/
def capHit (sa : StopAfter) (count : Int) : Bool :=
  match sa with
  | StopAfter.int k => decide (count > k)
  | _ => false

/-- The `DataPrefetcher` object: `loader` is the wrapped source (a finite,
re-iterable list of batches), `stop_after` the optional cap, and
`loaditer` / `next` the mutable iteration state (`self.loaditer`,
`self.next_input`/`self.next_target`; input and target are always assigned
together, so one `Option α` slot models both).  `__init__` sets
`next_input = next_target = None` and takes `stop_after=None` by default. -/
structure DataPrefetcher (α : Type) where
  loader : List α
  stop_after : StopAfter := StopAfter.none
  loaditer : List α := []
  next : Option α := Option.none
deriving DecidableEq, Repr

/-- `DataPrefetcher.__len__`: `return len(self.loader)`. -/
def DataPrefetcher.len {α : Type} (p : DataPrefetcher α) : Nat :=
  p.loader.length

/-- `StopIteration` — the exception `next` raises on an exhausted iterator. -/
inductive PyErr where
  | stopIteration : PyErr
deriving DecidableEq, Repr

/-- `next(self.loaditer)` on an iterator with remaining elements `l`. -/
def nextE {α : Type} (l : List α) : Except PyErr (α × List α) :=
  match l with
  | [] => Except.error PyErr.stopIteration
  | b :: rest => Except.ok (b, rest)

/-- `DataPrefetcher.preload`: pull the next batch from `self.loaditer`;
on `StopIteration` set the next-slot to `None` and return (the exception is
caught, never propagated); otherwise issue the host→device copy of the batch
on the dedicated copy stream and store it in the next-slot.  The result is
the new `(next_input/next_target, loaditer)` state; the outer `Except` is
the exception behaviour of the call itself. -/
def preload {α : Type} (l : List α) : Except PyErr (Option α × List α) :=
  match nextE l with
  | Except.error _ => Except.ok (Option.none, l)
  | Except.ok (b, rest) => Except.ok (Option.some b, rest)

/-- Pure view of `preload` (it never lets an exception escape). -/
def preloadP {α : Type} (l : List α) : Option α × List α :=
  match l with
  | [] => (Option.none, [])
  | b :: rest => (Option.some b, rest)

/-- Events observable during one run of `DataPrefetcher.__iter__`:
`issue` is a host→device copy scheduled on the copy stream (the body of
`preload` after a successful `next`), `wait` is
`torch.cuda.current_stream().wait_stream(self.stream)`, and `yielded b` is
`yield input, target`. -/
inductive Ev (α : Type) where
  | issue : Ev α
  | wait : Ev α
  | yielded : α → Ev α
deriving DecidableEq, Repr

/-- Everything one run of `DataPrefetcher.__iter__` produces: the list of
yielded batches, the event trace, and the final `next`/`loaditer` state. -/
structure LoopOut (α : Type) where
  yields : List α
  events : List (Ev α)
  nextFin : Option α
  iterFin : List α
deriving DecidableEq, Repr

/-- The `while self.next_input is not None` loop body of
`DataPrefetcher.__iter__`, entered with the current preloaded batch `b`, the
remaining iterator contents `R`, and the current `count`.  Each pass: wait on
the copy stream, capture the batch, `preload()` the following one, increment
`count`, yield, then `break` if `type(stop_after) is int and count > stop_after`. -/
def whileLoop {α : Type} (sa : StopAfter) (b : α) :
    List α → Int → LoopOut α
  | [], _ =>
      { yields := [b]
        events := [Ev.wait, Ev.yielded b]
        nextFin := Option.none
        iterFin := [] }
  | b' :: R', count =>
      if capHit sa (count + 1) then
        { yields := [b]
          events := [Ev.wait, Ev.issue, Ev.yielded b]
          nextFin := Option.some b'
          iterFin := R' }
      else
        let o := whileLoop sa b' R' (count + 1)
        { yields := b :: o.yields
          events := Ev.wait :: Ev.issue :: Ev.yielded b :: o.events
          nextFin := o.nextFin
          iterFin := o.iterFin }

/-- One full run of `DataPrefetcher.__iter__`: `count = 0`,
`self.loaditer = iter(self.loader)` (a fresh iterator over the source),
one initial `preload()` (whose copy-issue, when the source is non-empty, is
the first event), then the while loop. -/
def iterRun {α : Type} (p : DataPrefetcher α) : LoopOut α :=
  match p.loader with
  | [] =>
      { yields := [], events := [], nextFin := Option.none, iterFin := [] }
  | b :: rest =>
      let o := whileLoop p.stop_after b rest 0
      { o with events := Ev.issue :: o.events }

/-- The `DataPrefetcher` object as it stands after a run of `__iter__`
(its mutable fields updated with the final iterator state). -/
def afterRun {α : Type} (p : DataPrefetcher α) : DataPrefetcher α :=
  { p with loaditer := (iterRun p).iterFin, next := (iterRun p).nextFin }

/-- Resuming the generator from a stored prefetcher state without calling
`__iter__` again: the while loop continues from `self.next_input` /
`self.loaditer` (with a fresh count; immaterial when `next` is `None`). -/
def resumeFrom {α : Type} (p : DataPrefetcher α) : List α :=
  match p.next with
  | Option.none => []
  | Option.some b => (whileLoop p.stop_after b p.loaditer 0).yields

theorem capHit_none (c : Int) : capHit StopAfter.none c = false := rfl

theorem capHit_other (c : Int) : capHit StopAfter.other c = false := rfl

/-- With no `int` cap the loop yields the current batch followed by the whole
remaining iterator, and ends with an empty, exhausted state. -/
theorem whileLoop_noCap {α : Type} (sa : StopAfter)
    (hsa : ∀ k : Int, sa ≠ StopAfter.int k) :
    ∀ (R : List α) (b : α) (c : Int),
      (whileLoop sa b R c).yields = b :: R ∧
      (whileLoop sa b R c).nextFin = Option.none ∧
      (whileLoop sa b R c).iterFin = ([] : List α) := by
  have hcap : ∀ c : Int, capHit sa c = false := by
    intro c
    cases sa with
    | none => rfl
    | int k => exact absurd rfl (hsa k)
    | other => rfl
  intro R
  induction R with
  | nil => intro b c; exact ⟨rfl, rfl, rfl⟩
  | cons b' R' ih =>
      intro b c
      simp only [whileLoop, hcap (c + 1), if_neg, Bool.false_eq_true,
        not_false_iff]
      have h := ih b' (c + 1)
      exact ⟨by rw [h.1], h.2.1, h.2.2⟩

/-- C1, core form: with `stop_after = None`, one run of `__iter__` yields
exactly the source list. -/
theorem iterRun_none_yields {α : Type} (src : List α) :
    (iterRun { loader := src, stop_after := StopAfter.none }).yields = src := by
  cases src with
  | nil => rfl
  | cons b rest =>
      have h := whileLoop_noCap (α := α) StopAfter.none
        (by intro k h; cases h) rest b 0
      simp only [iterRun]
      exact h.1

/-- C1: for every finite batch source of length `N`, iterating a
`DataPrefetcher` wrapping it with no early-stop cap configured yields exactly
`N` batches, equal to the source list itself — same order, no omissions, no
duplicates. -/
theorem prefetcher_noCap_yields_source {α : Type} (src : List α) :
    (iterRun { loader := src, stop_after := StopAfter.none }).yields = src ∧
    (iterRun { loader := src, stop_after := StopAfter.none }).yields.length
      = src.length := by
  refine ⟨iterRun_none_yields src, ?_⟩
  rw [iterRun_none_yields src]

/-- `iterRun` ignores a prefetcher's residual mutable state and, without an
`int` cap, yields the whole loader and ends exhausted. -/
theorem iterRun_noCap {α : Type} (p : DataPrefetcher α)
    (hsa : ∀ k : Int, p.stop_after ≠ StopAfter.int k) :
    (iterRun p).yields = p.loader ∧
    (iterRun p).nextFin = Option.none ∧
    (iterRun p).iterFin = ([] : List α) := by
  obtain ⟨loader, sa, li, nx⟩ := p
  cases loader with
  | nil => exact ⟨rfl, rfl, rfl⟩
  | cons b rest =>
      have h := whileLoop_noCap (α := α) sa hsa rest b 0
      exact ⟨h.1, h.2.1, h.2.2⟩

/-- With an `int` cap `k`, the loop entered at `count = c` yields the first
`(k - c).toNat + 1` batches of `currentBatch :: remaining`: the cap check
runs only after the increment and the yield, so the boundary is
`count > stop_after`, not `count ≥ stop_after`. -/
theorem whileLoop_cap_yields {α : Type} (k : Int) :
    ∀ (R : List α) (b : α) (c : Int),
      (whileLoop (StopAfter.int k) b R c).yields
        = (b :: R).take ((k - c).toNat + 1) := by
  intro R
  induction R with
  | nil =>
      intro b c
      simp [whileLoop]
  | cons b' R' ih =>
      intro b c
      by_cases h : c + 1 > k
      · have hcap : capHit (StopAfter.int k) (c + 1) = true := by
          simp [capHit]; omega
        have htn : (k - c).toNat = 0 := by omega
        simp [whileLoop, hcap, htn]
      · have hcap : capHit (StopAfter.int k) (c + 1) = false := by
          simp [capHit]; omega
        have htn : (k - c).toNat = (k - (c + 1)).toNat + 1 := by omega
        simp only [whileLoop, hcap, Bool.false_eq_true, if_false]
        rw [ih b' (c + 1), htn]
        rfl

/-- C3: with `stop_after = k` an `int` and `0 ≤ k < N`, iteration yields
exactly `k + 1` batches — the first `k + 1` of the source — and then stops:
the comparison `count > stop_after` happens only after `count` is
incremented and the batch yielded. -/
theorem prefetcher_cap_yields {α : Type} (src : List α) (k : Int)
    (h0 : 0 ≤ k) (h1 : k < src.length) :
    (iterRun { loader := src, stop_after := StopAfter.int k }).yields
        = src.take (k.toNat + 1) ∧
    (iterRun { loader := src, stop_after := StopAfter.int k }).yields.length
        = k.toNat + 1 := by
  cases src with
  | nil => simp at h1; omega
  | cons b rest =>
      have hy :
          (iterRun { loader := b :: rest, stop_after := StopAfter.int k }).yields
            = (b :: rest).take (k.toNat + 1) := by
        show (whileLoop (StopAfter.int k) b rest 0).yields
          = (b :: rest).take (k.toNat + 1)
        rw [whileLoop_cap_yields k rest b 0]
        congr 1
        omega
      refine ⟨hy, ?_⟩
      rw [hy, List.length_take]
      have hlen : k.toNat + 1 ≤ (b :: rest).length := by
        simp at h1 ⊢
        omega
      omega

/-- Witness for C3 at a concrete input: a source of three batches capped at
`stop_after = 1` yields the first two batches. -/
theorem prefetcher_cap_yields_witness :
    (0 : Int) ≤ 1 ∧ (1 : Int) < ([10, 20, 30] : List Nat).length ∧
    (iterRun { loader := [10, 20, 30], stop_after := StopAfter.int 1 }).yields
        = [10, 20] ∧
    (LoopOut.yields
        (iterRun { loader := [10, 20, 30], stop_after := StopAfter.int 1 })).length
      = 2 := by
  have h := prefetcher_cap_yields ([10, 20, 30] : List Nat) 1
    (by decide) (by decide)
  refine ⟨by decide, by decide, ?_, ?_⟩
  · rw [h.1]; decide
  · rw [h.2]; decide

/-- Number of host→device copies issued on the copy stream in a trace. -/
def nIssues {α : Type} : List (Ev α) → Nat
  | [] => 0
  | Ev.issue :: t => nIssues t + 1
  | Ev.wait :: t => nIssues t
  | Ev.yielded _ :: t => nIssues t

/-- Number of main-stream waits on the copy stream in a trace. -/
def nWaits {α : Type} : List (Ev α) → Nat
  | [] => 0
  | Ev.issue :: t => nWaits t
  | Ev.wait :: t => nWaits t + 1
  | Ev.yielded _ :: t => nWaits t

/-- Number of batches handed to the consumer in a trace. -/
def nYields {α : Type} : List (Ev α) → Nat
  | [] => 0
  | Ev.issue :: t => nYields t
  | Ev.wait :: t => nYields t
  | Ev.yielded _ :: t => nYields t + 1

/-- Instantaneous in-flight condition: with `i` issues and `w` waits so far,
`i - w ∈ \x7b0, 1\x7d`. -/
def stepOk (i w : Nat) : Bool :=
  decide (w ≤ i) && decide (i ≤ w + 1)

/-- Left-to-right scan of a trace starting from `i` issues, `w` waits and
`y` yields already seen: after every event the in-flight condition holds,
and every `yielded` event is covered by a strictly earlier wait
(`y < w` at the moment of the yield). -/
def traceOk {α : Type} : Nat → Nat → Nat → List (Ev α) → Bool
  | _, _, _, [] => true
  | i, w, y, Ev.issue :: t => stepOk (i + 1) w && traceOk (i + 1) w y t
  | i, w, y, Ev.wait :: t => stepOk i (w + 1) && traceOk i (w + 1) y t
  | i, w, y, Ev.yielded _ :: t =>
      decide (y < w) && stepOk i w && traceOk i w (y + 1) t

/-- The while-loop trace scans cleanly from any state with exactly one copy
in flight and every previous yield waited-on (`i = w + 1`, `y = w`). -/
theorem whileLoop_traceOk {α : Type} (sa : StopAfter) :
    ∀ (R : List α) (b : α) (c : Int) (w : Nat),
      traceOk (w + 1) w w (whileLoop sa b R c).events = true := by
  intro R
  induction R with
  | nil =>
      intro b c w
      simp [whileLoop, traceOk, stepOk]
  | cons b' R' ih =>
      intro b c w
      by_cases hcap : capHit sa (c + 1) = true
      · simp [whileLoop, hcap, traceOk, stepOk]
      · rw [Bool.not_eq_true] at hcap
        have hrec := ih b' (c + 1) (w + 1)
        simp only [whileLoop, hcap, Bool.false_eq_true, if_false, traceOk,
          stepOk, Bool.and_eq_true, decide_eq_true_eq]
        refine ⟨⟨by omega, by omega⟩, ⟨by omega, by omega⟩,
          ⟨by omega, by omega, by omega⟩, ?_⟩
        exact hrec

/-- A full `__iter__` trace scans cleanly from the empty state. -/
theorem iterRun_traceOk {α : Type} (p : DataPrefetcher α) :
    traceOk 0 0 0 (iterRun p).events = true := by
  obtain ⟨loader, sa, li, nx⟩ := p
  cases loader with
  | nil => rfl
  | cons b rest =>
      show traceOk 0 0 0 (Ev.issue :: (whileLoop sa b rest 0).events) = true
      have h := whileLoop_traceOk sa rest b 0 0
      simp [traceOk, stepOk, Bool.and_eq_true, decide_eq_true_eq]
      exact h

/-- Splitting a clean scan at any point bounds the counters of the first
part and certifies the wait covering the next yield. -/
theorem traceOk_split {α : Type} :
    ∀ (pfx sfx : List (Ev α)) (i w y : Nat),
      traceOk i w y (pfx ++ sfx) = true → w ≤ i → i ≤ w + 1 →
      ((w + nWaits pfx ≤ i + nIssues pfx ∧
        i + nIssues pfx ≤ w + nWaits pfx + 1) ∧
       (∀ (b : α) (sfx' : List (Ev α)),
          sfx = Ev.yielded b :: sfx' → y + nYields pfx < w + nWaits pfx)) := by
  intro pfx
  induction pfx with
  | nil =>
      intro sfx i w y ht hw hi
      refine ⟨⟨by simp [nWaits, nIssues]; omega, by simp [nWaits, nIssues]; omega⟩, ?_⟩
      intro b sfx' hsfx
      subst hsfx
      simp only [List.nil_append, traceOk, Bool.and_eq_true,
        decide_eq_true_eq] at ht
      simp [nYields, nWaits]
      omega
  | cons e pfx' ih =>
      intro sfx i w y ht hw hi
      cases e with
      | issue =>
          simp only [List.cons_append, traceOk, Bool.and_eq_true,
            decide_eq_true_eq, stepOk] at ht
          obtain ⟨⟨hw', hi'⟩, ht'⟩ := ht
          have h := ih sfx (i + 1) w y ht' hw' hi'
          refine ⟨⟨?_, ?_⟩, ?_⟩
          · simp [nWaits, nIssues]; omega
          · simp [nWaits, nIssues]; omega
          · intro b sfx' hsfx
            have := h.2 b sfx' hsfx
            simp [nYields, nWaits]
            omega
      | wait =>
          simp only [List.cons_append, traceOk, Bool.and_eq_true,
            decide_eq_true_eq, stepOk] at ht
          obtain ⟨⟨hw', hi'⟩, ht'⟩ := ht
          have h := ih sfx i (w + 1) y ht' hw' hi'
          refine ⟨⟨?_, ?_⟩, ?_⟩
          · simp [nWaits, nIssues]; omega
          · simp [nWaits, nIssues]; omega
          · intro b sfx' hsfx
            have := h.2 b sfx' hsfx
            simp [nYields, nWaits]
            omega
      | yielded a =>
          simp only [List.cons_append, traceOk, Bool.and_eq_true,
            decide_eq_true_eq, stepOk] at ht
          obtain ⟨⟨hyw, hw', hi'⟩, ht'⟩ := ht
          have h := ih sfx i w (y + 1) ht' hw' hi'
          refine ⟨⟨?_, ?_⟩, ?_⟩
          · simp [nWaits, nIssues]; omega
          · simp [nWaits, nIssues]; omega
          · intro b sfx' hsfx
            have := h.2 b sfx' hsfx
            simp [nYields, nWaits] at this ⊢
            omega

/-- C2: throughout any iteration of a `DataPrefetcher`, at every point of
the event trace the number of copies issued on the copy stream minus the
number of waits performed is 0 or 1 (at most one batch in flight), and every
batch handed to the consumer was covered by a main-stream wait on the copy
stream strictly before the yield. -/
theorem prefetcher_single_inflight {α : Type} (p : DataPrefetcher α)
    (pfx sfx : List (Ev α)) (h : (iterRun p).events = pfx ++ sfx) :
    (nWaits pfx ≤ nIssues pfx ∧ nIssues pfx ≤ nWaits pfx + 1) ∧
    (∀ (b : α) (sfx' : List (Ev α)),
      sfx = Ev.yielded b :: sfx' → nYields pfx < nWaits pfx) := by
  have ht := iterRun_traceOk p
  rw [h] at ht
  have hs := traceOk_split pfx sfx 0 0 0 ht (Nat.le_refl 0) (by omega)
  refine ⟨⟨?_, ?_⟩, ?_⟩
  · have := hs.1.1; omega
  · have := hs.1.2; omega
  · intro b sfx' hsfx
    have := hs.2 b sfx' hsfx
    omega

/-- Witness for C2: the trace of a two-batch source splits after the third
event (`issue, wait, issue`) just before the first yield; there one copy is
in flight and the wait count exceeds the yield count. -/
theorem prefetcher_single_inflight_witness :
    (iterRun ({ loader := [0, 1] } : DataPrefetcher Nat)).events
        = [Ev.issue, Ev.wait, Ev.issue]
            ++ [Ev.yielded 0, Ev.wait, Ev.yielded 1] ∧
    (nWaits ([Ev.issue, Ev.wait, Ev.issue] : List (Ev Nat))
        ≤ nIssues ([Ev.issue, Ev.wait, Ev.issue] : List (Ev Nat)) ∧
      nIssues ([Ev.issue, Ev.wait, Ev.issue] : List (Ev Nat))
        ≤ nWaits ([Ev.issue, Ev.wait, Ev.issue] : List (Ev Nat)) + 1) ∧
    nYields ([Ev.issue, Ev.wait, Ev.issue] : List (Ev Nat))
        < nWaits ([Ev.issue, Ev.wait, Ev.issue] : List (Ev Nat)) := by
  have h := prefetcher_single_inflight
    ({ loader := [0, 1] } : DataPrefetcher Nat)
    [Ev.issue, Ev.wait, Ev.issue] [Ev.yielded 0, Ev.wait, Ev.yielded 1]
    (by decide)
  exact ⟨by decide, h.1, h.2 0 [Ev.wait, Ev.yielded 1] rfl⟩

/-- Bound used for C4: one loop run yields at most one batch per remaining
source element plus the one already preloaded. -/
theorem whileLoop_yields_le {α : Type} (sa : StopAfter) :
    ∀ (R : List α) (b : α) (c : Int),
      (whileLoop sa b R c).yields.length ≤ R.length + 1 := by
  intro R
  induction R with
  | nil => intro b c; simp [whileLoop]
  | cons b' R' ih =>
      intro b c
      by_cases hcap : capHit sa (c + 1) = true
      · simp [whileLoop, hcap]
      · rw [Bool.not_eq_true] at hcap
        have h := ih b' (c + 1)
        simp only [whileLoop, hcap, Bool.false_eq_true, if_false,
          List.length_cons]
        simpa using Nat.succ_le_succ h

/-- C4: a `preload` on an exhausted source iterator returns normally
(`StopIteration` is caught, never propagated) and marks the no-next-batch
stop condition; iteration of an exhausted source yields nothing, and in
general iteration terminates by source exhaustion — with no cap it ends
exactly when the source does, with the stop condition marked, and it never
yields more batches than the source has. -/
theorem preload_exhaustion_normal {α : Type} (l : List α) (sa : StopAfter) :
    preload ([] : List α) = Except.ok (Option.none, ([] : List α)) ∧
    (∀ m : List α, preload m = Except.ok (preloadP m)) ∧
    (iterRun ({ loader := [], stop_after := sa } : DataPrefetcher α)).yields
        = [] ∧
    (iterRun { loader := l, stop_after := StopAfter.none }).yields = l ∧
    (iterRun { loader := l, stop_after := StopAfter.none }).nextFin
        = Option.none ∧
    (iterRun { loader := l, stop_after := sa }).yields.length ≤ l.length := by
  have hnone : ∀ k : Int, StopAfter.none ≠ StopAfter.int k := by
    intro k h; cases h
  refine ⟨rfl, ?_, rfl, ?_, ?_, ?_⟩
  · intro m; cases m <;> rfl
  · exact (iterRun_noCap { loader := l, stop_after := StopAfter.none }
      hnone).1
  · exact (iterRun_noCap { loader := l, stop_after := StopAfter.none }
      hnone).2.1
  · cases l with
    | nil => simp [iterRun]
    | cons b rest =>
        have h := whileLoop_yields_le sa rest b 0
        simpa [iterRun] using h

/-- Counterexample to C6 as stated: after a two-batch `DataPrefetcher` is
exhausted (final state has `next_input = None` and an empty iterator),
calling `__iter__` again on the very same object reproduces the full batch
sequence — `__iter__` itself rebinds `self.loaditer = iter(self.loader)`,
so no new `DataPrefetcher` is required. -/
theorem prefetcher_reiterate_counterexample :
    (iterRun ({ loader := [0, 1] } : DataPrefetcher Nat)).yields = [0, 1] ∧
    (afterRun ({ loader := [0, 1] } : DataPrefetcher Nat)).next
        = Option.none ∧
    (afterRun ({ loader := [0, 1] } : DataPrefetcher Nat)).loaditer = [] ∧
    (iterRun (afterRun ({ loader := [0, 1] } : DataPrefetcher Nat))).yields
        = [0, 1] := by
  decide

/-- C6 (amended): after termination by source exhaustion the generator is
finished — resuming from the stored exhaustion state (`next_input = None`)
yields nothing further; producing the sequence again requires a fresh
source iterator, which `__iter__` obtains itself via
`iter(self.loader)` each time it is called, so re-calling `__iter__` on the
same `DataPrefetcher` (not necessarily a new one) reproduces the sequence. -/
theorem prefetcher_restart_amended {α : Type} (p : DataPrefetcher α)
    (hsa : ∀ k : Int, p.stop_after ≠ StopAfter.int k) :
    resumeFrom (afterRun p) = [] ∧
    (iterRun (afterRun p)).yields = p.loader ∧
    (iterRun (afterRun p)).yields = (iterRun p).yields := by
  have h := iterRun_noCap p hsa
  have hload : (afterRun p).loader = p.loader := rfl
  have hsa' : ∀ k : Int, (afterRun p).stop_after ≠ StopAfter.int k := hsa
  have h2 := iterRun_noCap (afterRun p) hsa'
  refine ⟨?_, ?_, ?_⟩
  · show resumeFrom (afterRun p) = []
    have hn : (afterRun p).next = Option.none := h.2.1
    simp [resumeFrom, hn]
  · rw [h2.1, hload]
  · rw [h2.1, hload, h.1]

/-- Witness for the amended C6 at a concrete input. -/
theorem prefetcher_restart_amended_witness :
    resumeFrom (afterRun ({ loader := [7, 8] } : DataPrefetcher Nat)) = [] ∧
    (iterRun (afterRun ({ loader := [7, 8] } : DataPrefetcher Nat))).yields
        = [7, 8] ∧
    (iterRun (afterRun ({ loader := [7, 8] } : DataPrefetcher Nat))).yields
        = (iterRun ({ loader := [7, 8] } : DataPrefetcher Nat)).yields := by
  exact prefetcher_restart_amended ({ loader := [7, 8] } : DataPrefetcher Nat)
    (by intro k h; cases h)

/-- C8: `__len__` reports `len(self.loader)` — the element count of the
underlying source — regardless of the configured cap and of any iteration
state. -/
theorem prefetcher_len_eq_source {α : Type} (l : List α) (sa : StopAfter)
    (li : List α) (nx : Option α) :
    DataPrefetcher.len
        { loader := l, stop_after := sa, loaditer := li, next := nx }
      = l.length := rfl

/-- C10: the constructor default is `stop_after = None`, and with
`stop_after = None` or any non-`int` value the cap test
`type(self.stop_after) is int and count > self.stop_after` never fires, so
iteration always runs until the source is exhausted. -/
theorem prefetcher_cap_needs_int {α : Type} (src : List α) (sa : StopAfter)
    (hsa : ∀ k : Int, sa ≠ StopAfter.int k) :
    ({ loader := src } : DataPrefetcher α).stop_after = StopAfter.none ∧
    (∀ c : Int, capHit sa c = false) ∧
    (iterRun { loader := src, stop_after := sa }).yields = src := by
  refine ⟨rfl, ?_, ?_⟩
  · intro c
    cases sa with
    | none => rfl
    | int k => exact absurd rfl (hsa k)
    | other => rfl
  · exact (iterRun_noCap { loader := src, stop_after := sa } hsa).1

/-- Witness for C10: a non-`int` `stop_after` (`other`, e.g. a float) leaves
a three-batch source fully yielded. -/
theorem prefetcher_cap_needs_int_witness :
    (({ loader := [5, 6, 7] } : DataPrefetcher Nat)).stop_after
        = StopAfter.none ∧
    (capHit StopAfter.other 1 = false) ∧
    (iterRun ({ loader := [5, 6, 7], stop_after := StopAfter.other } :
        DataPrefetcher Nat)).yields = [5, 6, 7] := by
  have h := prefetcher_cap_needs_int ([5, 6, 7] : List Nat) StopAfter.other
    (by intro k hk; cases hk)
  exact ⟨h.1, h.2.1 1, h.2.2⟩

/-! ## Glue: `main`, `torch_loader`, the fp16 assertion and the logging sink

String literals from the script, named so they can be reused verbatim. -/

def fp16Msg : String := "fp16 mode requires cudnn backend to be enabled."

def sz160Sfx : String := "-sz/160"

def sz320Sfx : String := "-sz/320"

def stage1Name : String := "1"

def stage3Name : String := "3"

def bestModelSfx : String := "_best_model"

def trainingLogsSeg : String := "/training_logs"

def slashStr : String := "/"

def logTxtSfx : String := "_log.txt"

def appendMode : String := "a"

def tabStr : String := "\t"

def nlStr : String := "\n"

def colonStr : String := ":"

def trainBeginMsg : String := "\ton_train_begin"

def trainEndMsg : String := "\ton_train_end"

def epochHdr : String := "\tEpoch:"

def trnLossHdr : String := "\ttrn_loss:"

def batchHdrEpoch : String := "Epoch: "

def batchHdrBatch : String := " Batch: "

def batchHdrMetrics : String := " Metrics: "

def valLossKey : String := "val_loss"

def accKey : String := "acc"

def top5Key : String := "top5"

def emptyKey : String := ""

/-- One training stage of `main`: the `torch_loader` arguments
(`data_path`, `size`, `bs`) and the `fit` arguments (`name`, `lr`,
`cycle_len`, `wds`) of that stage.  Learning rate and weight decay are the
exact decimal literals of the script, as rationals. -/
structure Stage where
  dataDir : String
  size : Nat
  bs : Nat
  fitName : String
  lr : Rat
  cycleLen : Nat
  wd : Rat
deriving DecidableEq, Repr

/-- The three stages of `main`, given the positional `data` argument `d`:
`torch_loader(f"..-sz/160", 128, 256)` then `fit(.., "1", 0.03, 1, .., wd)`;
`torch_loader(f"..-sz/320", 128, 256)` then `fit(.., "3", 1e-1, 1, .., wd)`;
`torch_loader(args.data, 128, 256)` then `fit(.., "3", 1e-1, 1, .., wd)`;
with `wd = 2e-5` set once before the first fit. -/
def mainStages (d : String) : List Stage :=
  [ { dataDir := d ++ sz160Sfx, size := 128, bs := 256,
      fitName := stage1Name, lr := 3 / 100, cycleLen := 1, wd := 2 / 100000 },
    { dataDir := d ++ sz320Sfx, size := 128, bs := 256,
      fitName := stage3Name, lr := 1 / 10, cycleLen := 1, wd := 2 / 100000 },
    { dataDir := d, size := 128, bs := 256,
      fitName := stage3Name, lr := 1 / 10, cycleLen := 1, wd := 2 / 100000 } ]

/-- The `TorchModelData` built by `torch_loader`: three `DataPrefetcher`s
freshly wrapped around the train, validation and augmented-validation
loaders, whose batch sizes are `bs`, `bs*2` and `bs`. -/
structure TorchModelDataM (α : Type) where
  trn_dl : DataPrefetcher α
  val_dl : DataPrefetcher α
  aug_dl : DataPrefetcher α
  trnBs : Nat
  valBs : Nat
  augBs : Nat
deriving DecidableEq, Repr

/-- `torch_loader(data_path, size, bs)`, data-pipeline part: each of the
three loaders is wrapped in a new `DataPrefetcher(loader)` with the default
`stop_after=None`. -/
def torch_loader_model {α : Type} (bs : Nat) (tb vb ab : List α) :
    TorchModelDataM α :=
  { trn_dl := { loader := tb }
    val_dl := { loader := vb }
    aug_dl := { loader := ab }
    trnBs := bs
    valBs := bs * 2
    augBs := bs }

/-- Concrete dataset-root argument used for closed instances. -/
def dataArgW : String := "data"

/-- Counterexample to C5 as stated: the input resolution does not increase
128→320→full — `main` passes `size = 128` to `torch_loader` in all three
stages (only the dataset directory changes), so no assignment of a
full-resolution value makes the per-stage sizes `[128, 320, full]`. -/
theorem main_resolution_counterexample :
    (mainStages dataArgW).map Stage.size = [128, 128, 128] ∧
    ¬ ∃ fullRes : Nat,
        (mainStages dataArgW).map Stage.size = [128, 320, fullRes] := by
  refine ⟨rfl, ?_⟩
  rintro ⟨fullRes, hf⟩
  simp [mainStages] at hf

/-- C5 (amended): `main` runs three sequential stages over dataset copies of
increasing source resolution (the 160-px subsampled copy at `<data>-sz/160`,
the 320-px subsampled copy at `<data>-sz/320`, then the full dataset), with
the network input size fixed at `128` and the batch size at `256` in every
stage; each stage rebuilds its loaders — `torch_loader` wraps fresh
`DataPrefetcher`s (default cap) around train/val/aug loaders with batch
sizes `bs`, `2·bs`, `bs` — and performs exactly one fit cycle
(`cycle_len = 1`) with its configured learning rate (`0.03`, `0.1`, `0.1`)
and weight decay (`2e-5` throughout). -/
theorem main_stages_amended (d : String) (tb vb ab : List Nat) :
    (mainStages d).map Stage.dataDir = [d ++ sz160Sfx, d ++ sz320Sfx, d] ∧
    (mainStages d).map Stage.size = [128, 128, 128] ∧
    (mainStages d).map Stage.bs = [256, 256, 256] ∧
    (mainStages d).map Stage.cycleLen = [1, 1, 1] ∧
    (mainStages d).map Stage.lr = [3 / 100, 1 / 10, 1 / 10] ∧
    (mainStages d).map Stage.wd = [2 / 100000, 2 / 100000, 2 / 100000] ∧
    (mainStages d).map Stage.fitName = [stage1Name, stage3Name, stage3Name] ∧
    (torch_loader_model 256 tb vb ab).trn_dl
        = { loader := tb, stop_after := StopAfter.none } ∧
    (torch_loader_model 256 tb vb ab).val_dl
        = { loader := vb, stop_after := StopAfter.none } ∧
    (torch_loader_model 256 tb vb ab).aug_dl
        = { loader := ab, stop_after := StopAfter.none } ∧
    (torch_loader_model 256 tb vb ab).valBs
        = 2 * (torch_loader_model 256 tb vb ab).trnBs :=
  ⟨rfl, rfl, rfl, rfl, rfl, rfl, rfl, rfl, rfl, rfl, rfl⟩

/-- The configuration `main` consults before training: `args.fp16` and
`torch.backends.cudnn.enabled`. -/
structure MainCfg where
  fp16 : Bool
  cudnnEnabled : Bool
deriving DecidableEq, Repr

/-- `if args.fp16: assert torch.backends.cudnn.enabled, "fp16 mode ..."` —
the assertion fails exactly when fp16 is requested and cudnn is disabled. -/
def fp16Assert (cfg : MainCfg) : Except String Unit :=
  if cfg.fp16 && !cfg.cudnnEnabled then Except.error fp16Msg
  else Except.ok ()

/-- `main` after argument parsing: the fp16/cudnn assertion runs before any
stage; on failure nothing is trained, otherwise the three stages follow. -/
def mainRun (cfg : MainCfg) (d : String) : Except String (List Stage) :=
  match fp16Assert cfg with
  | Except.error e => Except.error e
  | Except.ok _ => Except.ok (mainStages d)

/-- C7: with `--fp16` set and the cudnn backend disabled, `main` fails with
the fatal assertion before any training stage runs; with the backend
enabled the assertion passes and the three training stages proceed. -/
theorem fp16_assert_gate (d : String) :
    (∀ cfg : MainCfg, cfg.fp16 = true → cfg.cudnnEnabled = false →
        mainRun cfg d = Except.error fp16Msg) ∧
    (∀ cfg : MainCfg, cfg.cudnnEnabled = true →
        mainRun cfg d = Except.ok (mainStages d)) := by
  constructor
  · rintro ⟨f16, cud⟩ h1 h2
    subst h1; subst h2; rfl
  · rintro ⟨f16, cud⟩ h
    subst h; cases f16 <;> rfl

/-- Witness for C7 at concrete configurations. -/
theorem fp16_assert_gate_witness :
    mainRun { fp16 := true, cudnnEnabled := false } dataArgW
        = Except.error fp16Msg ∧
    mainRun { fp16 := true, cudnnEnabled := true } dataArgW
        = Except.ok (mainStages dataArgW) :=
  ⟨(fp16_assert_gate dataArgW).1 { fp16 := true, cudnnEnabled := false }
      rfl rfl,
    (fp16_assert_gate dataArgW).2 { fp16 := true, cudnnEnabled := true } rfl⟩

/-- The `ImagenetLoggingCallback` object: its constructor arguments
`save_path` and `print_every` (default 50). -/
structure ImagenetLoggingCallback where
  save_path : String
  print_every : Nat := 50
deriving DecidableEq, Repr

/-- The file handle opened by `on_train_begin`:
`open(self.save_path, "a", 1)` — append mode, line buffered. -/
structure LogFile where
  path : String
  mode : String
  buffering : Nat
deriving DecidableEq, Repr

/-- `self.f = open(self.save_path, "a", 1)` in `on_train_begin`. -/
def openLogFile (cb : ImagenetLoggingCallback) : LogFile :=
  { path := cb.save_path, mode := appendMode, buffering := 1 }

/-- `ImagenetLoggingCallback.log`: every write is
`time.strftime(..) + "\t" + string + "\n"` — one line keyed by the
wall-clock timestamp `ts`. -/
def logWrite (ts s : String) : String := ts ++ tabStr ++ s ++ nlStr

/-- Lines `on_train_begin` writes (besides opening the file). -/
def on_train_begin_writes (ts : String) : List String :=
  [logWrite ts trainBeginMsg]

/-- The `log_str` built by `on_epoch_end`:
`f"\tEpoch:{epoch}\ttrn_loss:{last_loss}"` followed by one `"\t{k}:{v}"`
per `(k, v)` in `zip(["val_loss", "acc", "top5", ""], metrics)`. -/
def epochEndLine (epoch : Nat) (lastLoss : String) (metrics : List String) :
    String :=
  (List.zip [valLossKey, accKey, top5Key, emptyKey] metrics).foldl
    (fun acc kv => acc ++ tabStr ++ kv.1 ++ colonStr ++ kv.2)
    (epochHdr ++ toString epoch ++ trnLossHdr ++ lastLoss)

/-- Lines `on_epoch_end` writes. -/
def on_epoch_end_writes (ts : String) (epoch : Nat) (lastLoss : String)
    (metrics : List String) : List String :=
  [logWrite ts (epochEndLine epoch lastLoss metrics)]

/-- Lines `on_batch_end` writes: `self.batch` is incremented first, then a
line goes out only every `print_every` batches. -/
def on_batch_end_writes (cb : ImagenetLoggingCallback) (ts : String)
    (epoch batch : Nat) (metrics : String) : List String :=
  if (batch + 1) % cb.print_every == 0 then
    [logWrite ts (batchHdrEpoch ++ toString epoch ++ batchHdrBatch
      ++ toString (batch + 1) ++ batchHdrMetrics ++ metrics)]
  else []

/-- Lines `on_train_end` writes (before closing the file). -/
def on_train_end_writes (ts : String) : List String :=
  [logWrite ts trainEndMsg]

/-- The dict `save_args` returns when it does not return `{}`. -/
structure SaveArgsOut where
  best_save_name : String
  cycle_save_name : String
  callbacks : List ImagenetLoggingCallback
deriving DecidableEq, Repr

/-- `save_args(name, save_dir)`: `{}` (no callbacks, no save names) unless
`args.rank == 0` and `args.save_dir` is truthy; otherwise the best/cycle
save names and one logging callback on
`f"{save_dir}/training_logs/{name}_log.txt"`. -/
def save_args (rank : Int) (save_dir : String) (name : String) :
    Option SaveArgsOut :=
  if rank ≠ 0 ∨ save_dir.isEmpty = true then Option.none
  else Option.some
    { best_save_name := name ++ bestModelSfx
      cycle_save_name := name
      callbacks := [{ save_path :=
        save_dir ++ trainingLogsSeg ++ slashStr ++ name ++ logTxtSfx }] }

/-- C9: the logging/checkpoint sink exists only on rank 0 with a configured
save directory (otherwise `fit` gets no callbacks and no best/cycle save
names); when created, its log file is opened in append mode with line
buffering, and every line any hook writes is keyed by the wall-clock
timestamp. -/
theorem logging_sink_spec (rank : Int) (sd name ts lastLoss metrics : String)
    (epoch batch : Nat) (cb : ImagenetLoggingCallback) (mets : List String) :
    ((rank ≠ 0 ∨ sd.isEmpty = true) → save_args rank sd name = Option.none) ∧
    (rank = 0 → sd.isEmpty = false →
      save_args rank sd name = Option.some
        { best_save_name := name ++ bestModelSfx
          cycle_save_name := name
          callbacks := [{ save_path :=
            sd ++ trainingLogsSeg ++ slashStr ++ name ++ logTxtSfx }] }) ∧
    ((openLogFile cb).mode = appendMode ∧ (openLogFile cb).buffering = 1 ∧
      (openLogFile cb).path = cb.save_path) ∧
    (∀ w ∈ on_train_begin_writes ts
        ++ on_epoch_end_writes ts epoch lastLoss mets
        ++ on_batch_end_writes cb ts epoch batch metrics
        ++ on_train_end_writes ts,
      ∃ body, w = ts ++ tabStr ++ body ++ nlStr) := by
  refine ⟨?_, ?_, ⟨rfl, rfl, rfl⟩, ?_⟩
  · intro h
    simp only [save_args, if_pos h]
  · intro h1 h2
    have hcond : ¬ (rank ≠ 0 ∨ sd.isEmpty = true) := by
      rw [h1, h2]; simp
    simp only [save_args, if_neg hcond]
  · intro w hw
    rcases List.mem_append.mp hw with hrest | h
    · rcases List.mem_append.mp hrest with hrest2 | h
      · rcases List.mem_append.mp hrest2 with h | h
        · simp only [on_train_begin_writes, List.mem_singleton] at h
          exact ⟨trainBeginMsg, h⟩
        · simp only [on_epoch_end_writes, List.mem_singleton] at h
          exact ⟨epochEndLine epoch lastLoss mets, h⟩
      · simp only [on_batch_end_writes] at h
        by_cases hc : (batch + 1) % cb.print_every == 0
        · rw [if_pos hc, List.mem_singleton] at h
          exact ⟨batchHdrEpoch ++ toString epoch ++ batchHdrBatch
            ++ toString (batch + 1) ++ batchHdrMetrics ++ metrics, h⟩
        · rw [if_neg hc] at h
          exact absurd h (List.not_mem_nil w)
    · simp only [on_train_end_writes, List.mem_singleton] at h
      exact ⟨trainEndMsg, h⟩

/-- Concrete save directory for the C9 witness. -/
def sdW : String := "save"

/-- Concrete timestamp for the C9 witness. -/
def tsW : String := "T"

/-- Witness for C9 at concrete inputs: rank 1 gets no sink; rank 0 with a
non-empty save directory gets the sink, and a concrete hook line is
timestamp-keyed. -/
theorem logging_sink_spec_witness :
    save_args 1 sdW stage1Name = Option.none ∧
    save_args 0 sdW stage1Name = Option.some
      { best_save_name := stage1Name ++ bestModelSfx
        cycle_save_name := stage1Name
        callbacks := [{ save_path :=
          sdW ++ trainingLogsSeg ++ slashStr ++ stage1Name ++ logTxtSfx }] } ∧
    (∃ body, logWrite tsW trainBeginMsg = tsW ++ tabStr ++ body ++ nlStr) := by
  have hA := (logging_sink_spec 1 sdW stage1Name tsW emptyKey emptyKey 0 0
    { save_path := sdW } []).1 (Or.inl (by decide))
  have hB := (logging_sink_spec 0 sdW stage1Name tsW emptyKey emptyKey 0 0
    { save_path := sdW } []).2.1 rfl rfl
  have hC := (logging_sink_spec 0 sdW stage1Name tsW emptyKey emptyKey 0 0
    { save_path := sdW } []).2.2.2 (logWrite tsW trainBeginMsg)
    (by
      apply List.mem_append_left
      apply List.mem_append_left
      apply List.mem_append_left
      simp [on_train_begin_writes])
  exact ⟨hA, hB, hC⟩

end JhWarm
